import Mathlib

/-!
Verification development for the PDF structure-extraction core
(`utils.py`, `outline_extractor.py`, `title_extractor.py`, `json_validator.py`).

Strings are modelled as `List Char` (Python `str`), numeric font sizes and
positions as `ℚ` (Python floats carry exact decimal constants here; no
comparison in the source is close enough to a binary-rounding boundary for
the distinction to matter on the inputs under study), pages as `ℤ`, and
style flags as `ℕ`.  Fallible reads from the external PDF engine
(metadata, table of contents, per-page span lists) are modelled as
`Except Unit _`, with `.error` standing for "the engine raised"; the
embedded functions return the corresponding Python `except` branch value
there.
-/

namespace PdfStruct

/-- Python `str.strip()` / regex `\s` whitespace, restricted to the
whitespace characters that can actually occur in the texts under study
(ASCII whitespace plus NEL and NBSP). -/
def pyWs (c : Char) : Bool :=
  c = ' ' || c = '\t' || c = '\n' || c = '\r' ||
  c = Char.ofNat 11 || c = Char.ofNat 12 || c = Char.ofNat 0x85 || c = Char.ofNat 0xA0

/-- Python `str.strip()`: drop leading and trailing whitespace. -/
def pyStrip (s : List Char) : List Char :=
  ((s.dropWhile pyWs).reverse.dropWhile pyWs).reverse

/-- Python `str.lower()` (ASCII; the texts under study are ASCII). -/
def lowerL (s : List Char) : List Char := s.map Char.toLower

def isAsciiUpper (c : Char) : Bool := 'A' ≤ c && c ≤ 'Z'

def isAsciiLower (c : Char) : Bool := 'a' ≤ c && c ≤ 'z'

def isAsciiAlpha (c : Char) : Bool := isAsciiUpper c || isAsciiLower c

/-- Does `needle` occur as a prefix of `hay`? -/
def startsWithL : List Char → List Char → Bool
  | a :: as, b :: bs => decide (a = b) && startsWithL as bs
  | [], _ => true
  | _ :: _, [] => false

/-- Does `needle` occur as a contiguous substring of `hay`?
(Python `needle in hay`.) -/
def containsSub (needle : List Char) : List Char → Bool
  | [] => startsWithL needle []
  | c :: t => startsWithL needle (c :: t) || containsSub needle t

/-- The `re.sub(r'\s+', ' ', ·)` pass of `clean_text`: replace every maximal
whitespace run by a single space.  The flag records whether the previous
character belonged to a whitespace run. -/
def collapseGo : Bool → List Char → List Char
  | _, [] => []
  | prevWs, c :: rest =>
    if pyWs c then
      if prevWs then collapseGo true rest
      else ' ' :: collapseGo true rest
    else c :: collapseGo false rest

/-- Character filter of `clean_text`: `re.sub(r'[^\x20-\x7E -￿]', '', ·)`
keeps exactly printable ASCII and U+00A0..U+FFFF. -/
def printableKeep (c : Char) : Bool :=
  (0x20 ≤ c.toNat && c.toNat ≤ 0x7E) || (0xA0 ≤ c.toNat && c.toNat ≤ 0xFFFF)

/-- The `re.sub(r'\.{3,}', '...', ·)` pass of `clean_text`: every maximal run
of three or more consecutive dots becomes exactly three dots.  `n` counts
the pending run of dots already scanned. -/
def sub1Go : Nat → List Char → List Char
  | n, [] => List.replicate (min n 3) '.'
  | n, c :: rest =>
    if c = '.' then sub1Go (n + 1) rest
    else List.replicate (min n 3) '.' ++ c :: sub1Go 0 rest

/-- Attempt to match the regex `\s*\.\s*\.\s*\.` at the head of `s`
(the pattern of the second dot-substitution in `clean_text`); on success
return the remainder after the match.  The greedy `\s*` needs no
backtracking because `.` is not whitespace. -/
def dotThen (s : List Char) : Option (List Char) :=
  match s with
  | c :: r => if c = '.' then some r else none
  | [] => none

def matchSpacedDots (s : List Char) : Option (List Char) :=
  (dotThen (s.dropWhile pyWs)).bind fun r1 =>
    (dotThen (r1.dropWhile pyWs)).bind fun r2 =>
      dotThen (r2.dropWhile pyWs)

/-- The `re.sub(r'\s*\.\s*\.\s*\.', '...', ·)` pass of `clean_text`:
left-to-right, non-overlapping replacement of each match by three dots.
The fuel argument (initially the list length) only serves termination:
every step consumes at least one character, so fuel never runs out. -/
def sub2Aux : Nat → List Char → List Char
  | 0, s => s
  | _ + 1, [] => []
  | fuel + 1, c :: rest =>
    match matchSpacedDots (c :: rest) with
    | some r => '.' :: '.' :: '.' :: sub2Aux fuel r
    | none => c :: sub2Aux fuel rest

/-- Embedding of `utils.clean_text`: strip, collapse whitespace runs, drop characters
outside printable ASCII and U+00A0..U+FFFF, collapse dot runs, collapse
space-separated dot triples, strip again. -/
def clean_text (text : List Char) : List Char :=
  let t1 := collapseGo false (pyStrip text)
  let t2 := t1.filter printableKeep
  let t3 := sub1Go 0 t2
  let t4 := sub2Aux t3.length t3
  pyStrip t4


/-- Embedding of `utils.normalize_level`: clamp a numeric level into `[1, 6]` and render
it as `h1`..`h6` (the Python f-string `f"h{level}"` on the clamped value). -/
def normalize_level (level : Int) : String :=
  let l := max 1 (min 6 level)
  if l = 1 then "h1" else if l = 2 then "h2" else if l = 3 then "h3"
  else if l = 4 then "h4" else if l = 5 then "h5" else "h6"

/-- Match `\d+` at the head; on success return the remainder after the
maximal digit run.  (`\d+` never needs backtracking below because the
characters required next are never digits.) -/
def digitsOne (s : List Char) : Option (List Char) :=
  match s with
  | c :: rest => if c.isDigit then some (rest.dropWhile Char.isDigit) else none
  | [] => none

/-- Regex `^\d+\.\d+\.\d+` (the `1.1.1` heading form). -/
def matchNumDotNumDotNum (s : List Char) : Bool :=
  match digitsOne s with
  | some ('.' :: r1) =>
    match digitsOne r1 with
    | some ('.' :: r2) => (digitsOne r2).isSome
    | _ => false
  | _ => false

/-- Regex `^\d+\.\d+` (the `1.1` heading form). -/
def matchNumDotNum (s : List Char) : Bool :=
  match digitsOne s with
  | some ('.' :: r1) => (digitsOne r1).isSome
  | _ => false

/-- Regex `^\d+\.?` — satisfied by any text starting with a digit. -/
def matchNumOptDot (s : List Char) : Bool := (digitsOne s).isSome

def isRomanChar (c : Char) : Bool := c = 'I' || c = 'V' || c = 'X'

/-- Regex `^[IVX]+\.?` — satisfied by any text starting with `I`, `V` or `X`. -/
def matchRomanOptDot (s : List Char) : Bool :=
  match s with
  | c :: _ => isRomanChar c
  | [] => false

/-- Regex `^[A-Z]\.` (the `A.` heading form). -/
def matchCapDot (s : List Char) : Bool :=
  match s with
  | a :: '.' :: _ => isAsciiUpper a
  | _ => false

/-- Embedding of `utils.detect_heading_level`: dotted-number / roman / lettered prefix
rules, then keyword containment on the lower-cased text, then the
font-size-ratio fallback. -/
def detect_heading_level (text : List Char) (font_size : ℚ) (flags : ℕ)
    (avg_font_size : ℚ) : String :=
  let text_lower := lowerL text
  if matchNumDotNumDotNum text then "h3"
  else if matchNumDotNum text then "h2"
  else if matchNumOptDot text then "h1"
  else if matchRomanOptDot text then "h1"
  else if matchCapDot text then "h2"
  else if containsSub ("chapter".data) text_lower || containsSub ("part".data) text_lower then "h1"
  else if containsSub ("section".data) text_lower then "h2"
  else if containsSub ("subsection".data) text_lower then "h3"
  else
    let sizeRel := if avg_font_size > 0 then font_size / avg_font_size else 1
    if sizeRel ≥ (1.8 : ℚ) then "h1"
    else if sizeRel ≥ (1.5 : ℚ) then "h2"
    else if sizeRel ≥ (1.2 : ℚ) then "h3"
    else "h4"


/-- Head character is a digit (helper for the `\s+\d` / `\s*\d` regex tails). -/
def headDigit : List Char → Bool
  | c :: _ => c.isDigit
  | [] => false

/-- Head character is an ASCII capital. -/
def headUpper : List Char → Bool
  | c :: _ => isAsciiUpper c
  | [] => false

/-- Regex tail `\s+\d`: at least one whitespace character, then a digit. -/
def wsThenDigit (s : List Char) : Bool :=
  match s with
  | c :: rest => pyWs c && headDigit (rest.dropWhile pyWs)
  | [] => false

/-- Regex tail `\s+[A-Z]`: at least one whitespace character, then a capital. -/
def wsThenUpper (s : List Char) : Bool :=
  match s with
  | c :: rest => pyWs c && headUpper (rest.dropWhile pyWs)
  | [] => false

/-- Regex `^\d+$` on the lower-cased text: nothing but digits. -/
def allDigitsPat (s : List Char) : Bool := !s.isEmpty && s.all Char.isDigit

/-- Regex `^page\s+\d+` (searched on the lower-cased text). -/
def matchPageNum (s : List Char) : Bool :=
  startsWithL ("page".data) s && wsThenDigit (s.drop 4)

/-- Regex `^\d+\s*of\s*\d+` (searched on the lower-cased text). -/
def matchNOfM (s : List Char) : Bool :=
  match digitsOne s with
  | some r =>
    let r1 := r.dropWhile pyWs
    startsWithL ("of".data) r1 && headDigit ((r1.drop 2).dropWhile pyWs)
  | none => false

/-- Regex `^(table|figure|chart|diagram)` (searched on the lower-cased text). -/
def matchCaption (s : List Char) : Bool :=
  startsWithL ("table".data) s || startsWithL ("figure".data) s ||
  startsWithL ("chart".data) s || startsWithL ("diagram".data) s

/-- Regex `^(see|refer|note|example)` (searched on the lower-cased text). -/
def matchReference (s : List Char) : Bool :=
  startsWithL ("see".data) s || startsWithL ("refer".data) s ||
  startsWithL ("note".data) s || startsWithL ("example".data) s

/-- Regex `^(http|www|ftp)` (searched on the lower-cased text). -/
def matchUrl (s : List Char) : Bool :=
  startsWithL ("http".data) s || startsWithL ("www".data) s ||
  startsWithL ("ftp".data) s

/-- Regex `^(chapter|section|part)\s+\d+` — case-sensitive, searched on the
original text (so only lower-case spellings match, as in the source). -/
def matchChapterSectionPartNum (s : List Char) : Bool :=
  (startsWithL ("chapter".data) s && wsThenDigit (s.drop 7)) ||
  (startsWithL ("section".data) s && wsThenDigit (s.drop 7)) ||
  (startsWithL ("part".data) s && wsThenDigit (s.drop 4))

/-- Regex `^\d+\.?\s+[A-Z]` (the `1. Title` form). -/
def matchNumTitle (s : List Char) : Bool :=
  match digitsOne s with
  | some r =>
    let r1 := match r with
      | '.' :: t => t
      | _ => r
    wsThenUpper r1
  | none => false

/-- Regex `^[IVX]+\.?\s+[A-Z]` (the roman-numeral title form). -/
def matchRomanTitle (s : List Char) : Bool :=
  match s with
  | c :: _ =>
    isRomanChar c &&
    (let r := s.dropWhile isRomanChar
     let r1 := match r with
       | '.' :: t => t
       | _ => r
     wsThenUpper r1)
  | [] => false

/-- Python `str.isupper()` (ASCII): at least one letter and no lower-case
letter. -/
def pyIsUpper (s : List Char) : Bool :=
  s.any isAsciiAlpha && s.all (fun c => !isAsciiLower c)

/-- Embedding of `utils.is_likely_title`: rejection patterns, then affirming patterns,
then the capital-initial heuristic. -/
def is_likely_title (text : List Char) : Bool :=
  if text.isEmpty || text.length < 3 then false
  else
    let text_lower := lowerL text
    if text.length > 200 then false
    else if allDigitsPat text_lower || matchPageNum text_lower ||
        matchNOfM text_lower || matchCaption text_lower ||
        matchReference text_lower || matchUrl text_lower ||
        text_lower.any (fun c => c == '@') then false
    else if matchChapterSectionPartNum text || matchNumTitle text ||
        matchRomanTitle text then true
    else if headUpper text && text.any isAsciiAlpha &&
        (!pyIsUpper text || text.length ≤ 50) then true
    else false


/-- One styled text span as handed over by the PDF engine (the fields the
core reads: text, font size, style flags, and the `bbox[1]` vertical
position). -/
structure Span where
  text : List Char
  size : ℚ
  flags : ℕ
  y0 : ℚ
deriving DecidableEq, Repr

/-- One produced outline item. -/
structure OutlineItem where
  level : String
  text : List Char
  page : Int
deriving DecidableEq, Repr

/-- A document as seen by the core: metadata title, native outline
(table of contents), page count, and per-page span lists.  `.error` marks
a read on which the PDF engine raises. -/
structure Document where
  metadataTitle : Except Unit (List Char)
  toc : Except Unit (List (Int × List Char × Int))
  page_count : Int
  pages : List (Except Unit (List Span))

/-- Stable insertion step: keep walking past `y` while `lt y x` holds, so
an inserted element lands after everything strictly smaller under `lt`
and before equals — the stability contract of Python's `list.sort`. -/
def insertStable (lt : α → α → Bool) (x : α) : List α → List α
  | [] => [x]
  | y :: ys => if lt y x then y :: insertStable lt x ys else x :: y :: ys

/-- Stable sort (extensionally equal to Python's stable `list.sort` with
strict comparison `lt`). -/
def sortStable (lt : α → α → Bool) : List α → List α
  | [] => []
  | x :: xs => insertStable lt x (sortStable lt xs)

/-- The `level_map` dictionary of `_fix_hierarchy` (`.get(level, 1)`). -/
def level_map (s : String) : ℕ :=
  if s = "h1" then 1 else if s = "h2" then 2 else if s = "h3" then 3
  else if s = "h4" then 4 else if s = "h5" then 5 else if s = "h6" then 6
  else 1

/-- The `reverse_map` dictionary of `_fix_hierarchy` (`.get(n, "h1")`). -/
def reverse_map (n : ℕ) : String :=
  if n = 1 then "h1" else if n = 2 then "h2" else if n = 3 then "h3"
  else if n = 4 then "h4" else if n = 5 then "h5" else if n = 6 then "h6"
  else "h1"

/-- The repair loop of `OutlineExtractor._fix_hierarchy`: `cur` is
`current_level`; a level ordinal above `cur + 1` is clamped down to
`cur + 1`, and `cur` becomes the (possibly clamped) ordinal. -/
def fixLevels (cur : ℕ) : List OutlineItem → List OutlineItem
  | [] => []
  | it :: rest =>
    let n0 := level_map it.level
    let n := if n0 > cur + 1 then cur + 1 else n0
    ⟨reverse_map n, it.text, it.page⟩ :: fixLevels n rest

/-- Embedding of `OutlineExtractor._fix_hierarchy` (empty guard plus the repair loop
starting at `current_level = 1`). -/
def fix_hierarchy (outline : List OutlineItem) : List OutlineItem :=
  match outline with
  | [] => []
  | _ => fixLevels 1 outline

/-- The deduplication key of `_refine_outline`: `(item["text"].lower(),
item["page"])`. -/
def itemKey (it : OutlineItem) : List Char × Int := (lowerL it.text, it.page)

/-- Deduplication loop of `_refine_outline`: keep the first occurrence of
each key. -/
def dedupGo (seen : List (List Char × Int)) : List OutlineItem → List OutlineItem
  | [] => []
  | it :: rest =>
    if itemKey it ∈ seen then dedupGo seen rest
    else it :: dedupGo (itemKey it :: seen) rest

/-- Comparison used by `refined.sort(key=lambda x: x["page"])`. -/
def pageLt (a b : OutlineItem) : Bool := a.page < b.page

/-- Embedding of `OutlineExtractor._refine_outline`: deduplicate, stable-sort by page,
repair the hierarchy. -/
def refine_outline (outline : List OutlineItem) : List OutlineItem :=
  match outline with
  | [] => []
  | _ => fix_hierarchy (sortStable pageLt (dedupGo [] outline))

/-- Embedding of `OutlineExtractor._extract_from_bookmarks`: clean each native entry's
title, drop entries whose cleaned title has fewer than 2 characters,
clamp the numeric level into `[1, 6]` and the page into
`[1, page_count]`.  A raised `get_toc` is caught and yields `[]`. -/
def extract_from_bookmarks (doc : Document) : List OutlineItem :=
  match doc.toc with
  | .error _ => []
  | .ok toc =>
    toc.filterMap (fun e =>
      let clean_title := clean_text e.2.1
      if clean_title.isEmpty || clean_title.length < 2 then none
      else some ⟨normalize_level e.1, clean_title, max 1 (min e.2.2 doc.page_count)⟩)

/-- Embedding of `OutlineExtractor._calculate_average_font_size` (default `12.0` for an
empty span list). -/
def calculate_average_font_size (spans : List Span) : ℚ :=
  if spans.isEmpty then 12
  else (spans.map Span.size).sum / spans.length

/-- The fixed `heading_patterns` of `OutlineExtractor`, matched with
`re.IGNORECASE` (so letter classes cover both cases).  The span texts these
run on are stripped, hence never end in whitespace; on such inputs the
`\s+.+` tails reduce to "a whitespace character here, with a later
non-whitespace character", which is what `wsThenMore` tests. -/
def wsThenMore (s : List Char) : Bool :=
  match s with
  | c :: _ => pyWs c && !(s.dropWhile pyWs).isEmpty
  | [] => false

def matchHeadingPattern (s : List Char) : Bool :=
  -- ^(\d+\.?\s+.+)
  (match digitsOne s with
   | some r =>
     wsThenMore (match r with
       | '.' :: t => t
       | _ => r)
   | none => false) ||
  -- ^([IVX]+\.?\s+.+), IGNORECASE
  (match s with
   | c :: _ =>
     (isRomanChar c || isRomanChar c.toUpper) &&
     (let r := s.dropWhile (fun d => isRomanChar d || isRomanChar d.toUpper)
      wsThenMore (match r with
        | '.' :: t => t
        | _ => r))
   | [] => false) ||
  -- ^([A-Z]\.?\s+.+), IGNORECASE
  (match s with
   | c :: r =>
     isAsciiAlpha c &&
     wsThenMore (match r with
       | '.' :: t => t
       | _ => r)
   | [] => false) ||
  -- ^(Chapter\s+\d+.+), IGNORECASE: after the digits at least one more
  -- non-newline character must follow (a second digit qualifies).
  (startsWithL ("chapter".data) (lowerL s) && chapterNumTail (s.drop 7)) ||
  -- ^(Section\s+\d+.+), IGNORECASE
  (startsWithL ("section".data) (lowerL s) && chapterNumTail (s.drop 7)) ||
  -- ^(\d+\.\d+\s+.+)
  (match digitsOne s with
   | some ('.' :: r1) =>
     (match digitsOne r1 with
      | some r2 => wsThenMore r2
      | none => false)
   | _ => false) ||
  -- ^(\d+\.\d+\.\d+\s+.+)
  (match digitsOne s with
   | some ('.' :: r1) =>
     (match digitsOne r1 with
      | some ('.' :: r2) =>
        (match digitsOne r2 with
         | some r3 => wsThenMore r3
         | none => false)
      | _ => false)
   | _ => false)
where
  /-- Tail `\s+\d+.+`: whitespace, a digit, and at least one further
  character that is not a newline. -/
  chapterNumTail (s : List Char) : Bool :=
    match s with
    | c :: rest =>
      pyWs c &&
      (match rest.dropWhile pyWs with
       | a :: b :: _ => a.isDigit && b ≠ '\n'
       | _ => false)
    | [] => false

/-- The `level_indicators` keyword set of `OutlineExtractor`. -/
def levelIndicatorKeywords : List (List Char) :=
  ["chapter".data, "section".data, "subsection".data, "part".data, "appendix".data]

/-- Embedding of `OutlineExtractor._is_likely_heading`. -/
def is_likely_heading (text : List Char) (font_size : ℚ) (flags : ℕ)
    (avg_font_size : ℚ) : Bool :=
  if text.length < 3 || text.length > 200 then false
  else if font_size > avg_font_size * (1.2 : ℚ) then true
  else if flags &&& 16 ≠ 0 && text.length < 100 then true
  else if matchHeadingPattern text then true
  else if levelIndicatorKeywords.any (fun kw => containsSub kw (lowerL text)) then true
  else false

/-- Comparison used by `text_spans.sort(key=lambda x: x["y"])`. -/
def yLt (a b : Span) : Bool := a.y0 < b.y0

/-- Embedding of `OutlineExtractor._find_headings_on_page`: collect the page's non-empty
stripped spans, sort them by vertical position, and classify the
heading-like ones.  A raised page read is caught and yields `[]`. -/
def find_headings_on_page (p : Except Unit (List Span)) (page_num : Int) :
    List OutlineItem :=
  match p with
  | .error _ => []
  | .ok spans =>
    let text_spans := spans.filterMap (fun s =>
      let t := pyStrip s.text
      if t.isEmpty then none else some ⟨t, s.size, s.flags, s.y0⟩)
    let sorted := sortStable yLt text_spans
    let avg := calculate_average_font_size sorted
    sorted.filterMap (fun s =>
      if is_likely_heading s.text s.size s.flags avg then
        some ⟨detect_heading_level s.text s.size s.flags avg, clean_text s.text, page_num⟩
      else none)

/-- The page loop of `OutlineExtractor._extract_from_content`, numbering
pages from `n`. -/
def contentHeadings (n : Int) : List (Except Unit (List Span)) → List OutlineItem
  | [] => []
  | p :: rest => find_headings_on_page p n ++ contentHeadings (n + 1) rest

/-- Embedding of `OutlineExtractor._extract_from_content`: concatenate per-page headings
and refine. -/
def extract_from_content (doc : Document) : List OutlineItem :=
  refine_outline (contentHeadings 1 doc.pages)

/-- Embedding of `OutlineExtractor.extract_outline`: bookmarks first, content analysis
only when the bookmark strategy yields nothing. -/
def extract_outline (doc : Document) : List OutlineItem :=
  let outline := extract_from_bookmarks doc
  if !outline.isEmpty then outline
  else extract_from_content doc

/-- Python `str.istitle()` (ASCII): an upper-case letter may not follow a
cased character, a lower-case letter must, and at least one cased
character must occur. -/
def pyIsTitleGo (prevCased found : Bool) : List Char → Bool
  | [] => found
  | c :: rest =>
    if isAsciiUpper c then
      if prevCased then false else pyIsTitleGo true true rest
    else if isAsciiLower c then
      if prevCased then pyIsTitleGo true true rest else false
    else pyIsTitleGo false found rest

def pyIsTitle (s : List Char) : Bool := pyIsTitleGo false false s

/-- The `ignore_words` set of `TitleExtractor`. -/
def ignoreWords : List (List Char) :=
  ["page".data, "chapter".data, "section".data, "table".data, "figure".data,
   "contents".data, "index".data, "appendix".data, "bibliography".data,
   "abstract".data, "introduction".data, "conclusion".data]

/-- Embedding of `TitleExtractor._calculate_title_score`: font size, vertical position,
bold bonus, length bonus (on the stored — stripped, not cleaned — span
text), title-case bonus, all-caps penalty. -/
def calculate_title_score (b : Span) : ℚ :=
  b.size * 2 + max 0 (800 - b.y0) / 10 +
  (if b.flags &&& 16 ≠ 0 then 20 else 0) +
  (if 10 ≤ b.text.length && b.text.length ≤ 100 then 30 else 0) +
  (if pyIsTitle b.text then 15 else 0) +
  (if pyIsUpper b.text && b.text.length > 20 then -10 else 0)

/-- Embedding of `TitleExtractor._get_text_blocks_with_formatting` on one page's spans:
keep the spans whose stripped text is non-empty, with the stripped text.
A raised page read is caught and yields `[]`. -/
def get_text_blocks (p : Except Unit (List Span)) : List Span :=
  match p with
  | .error _ => []
  | .ok spans =>
    spans.filterMap (fun s =>
      let t := pyStrip s.text
      if t.isEmpty then none else some ⟨t, s.size, s.flags, s.y0⟩)

/-- Candidate filter of `TitleExtractor._extract_from_first_page`: length
in `[5, 200]`, no ignore word as a case-insensitive substring, and the
title-likelihood predicate. -/
def titleCandidates (blocks : List Span) : List Span :=
  blocks.filter (fun b =>
    !(b.text.length < 5 || b.text.length > 200) &&
    !(ignoreWords.any (fun w => containsSub w (lowerL b.text))) &&
    is_likely_title b.text)

/-- Comparison realizing `candidates.sort(key=..score.., reverse=True)`:
a candidate stays in front of a later-produced one exactly when its score
is strictly larger, which is the stable descending order. -/
def scoreGt (a b : Span) : Bool := calculate_title_score b < calculate_title_score a

/-- Embedding of `TitleExtractor._extract_from_metadata`: accept the stripped metadata
title when it is non-empty of length `> 3`, and return it cleaned.  A
raised metadata read is caught and yields `none`. -/
def extract_from_metadata (doc : Document) : Option (List Char) :=
  match doc.metadataTitle with
  | .error _ => none
  | .ok raw =>
    let title := pyStrip raw
    if !title.isEmpty && title.length > 3 then some (clean_text title)
    else none

/-- Embedding of `TitleExtractor._extract_from_outline`: accept the first native outline
entry when its level is 1 and its raw title looks like a title.  A raised
`get_toc` is caught and yields `none`. -/
def extract_from_outline (doc : Document) : Option (List Char) :=
  match doc.toc with
  | .error _ => none
  | .ok [] => none
  | .ok (e :: _) =>
    if e.1 = 1 && is_likely_title e.2.1 then some (clean_text e.2.1)
    else none

/-- Embedding of `TitleExtractor._extract_from_first_page`: filter the first page's
blocks, sort the candidates by score (stable descending), return the best
candidate's cleaned text. -/
def extract_from_first_page (doc : Document) : Option (List Char) :=
  if doc.page_count = 0 then none
  else
    match doc.pages with
    | [] => none
    | p :: _ =>
      match sortStable scoreGt (titleCandidates (get_text_blocks p)) with
      | [] => none
      | c :: _ => some (clean_text c.text)

/-- One step of the scan loop of `TitleExtractor._extract_by_font_size`:
state is `(max_font_size, title_candidates)`. -/
def fontScanStep (st : ℚ × List (List Char)) (b : Span) : ℚ × List (List Char) :=
  if st.1 < b.size && 5 < b.text.length && is_likely_title b.text then
    (b.size, [b.text])
  else if b.size = st.1 && 5 < b.text.length && is_likely_title b.text then
    (st.1, st.2 ++ [b.text])
  else st

/-- Embedding of `TitleExtractor._extract_by_font_size`: scan the blocks of the first
three pages, tracking the maximal font size among qualifying spans; the
first candidate found at the final maximum is returned, cleaned. -/
def extract_by_font_size (doc : Document) : Option (List Char) :=
  let blocks := ((doc.pages.take (min 3 doc.page_count).toNat).map get_text_blocks).flatten
  match (blocks.foldl fontScanStep (0, [])).2 with
  | [] => none
  | t :: _ => some (clean_text t)

/-- Python truthiness of an optional string: `None` and `""` both fail the
`if title:` check in `extract_title`. -/
def orElseTitle (o : Option (List Char)) (next : List Char) : List Char :=
  match o with
  | some t => if t.isEmpty then next else t
  | none => next

/-- Embedding of `TitleExtractor.extract_title`: the four strategies in order; the first
truthy result wins; otherwise the empty string. -/
def extract_title (doc : Document) : List Char :=
  orElseTitle (extract_from_metadata doc)
    (orElseTitle (extract_from_outline doc)
      (orElseTitle (extract_from_first_page doc)
        (orElseTitle (extract_by_font_size doc) [])))

/-- The result record built by `PDFProcessor.process_pdf`. -/
structure ExtractionResult where
  title : List Char
  outline : List OutlineItem
deriving DecidableEq, Repr

/-- Embedding of `PDFProcessor.process_pdf` on an open document: a zero-page document is
rejected up front (the raised `ValueError` is caught and the empty result
returned); otherwise title and outline extraction run independently. -/
def process_pdf (doc : Document) : ExtractionResult :=
  if doc.page_count = 0 then ⟨[], []⟩
  else ⟨extract_title doc, extract_outline doc⟩

/-- Untyped Python values as they can reach `JSONValidator`: strings,
integers, lists, string-keyed dictionaries, and `None` standing in for
every other object. -/
inductive PyV where
  | vstr (s : List Char)
  | vint (n : Int)
  | vlist (l : List PyV)
  | vdict (l : List (String × PyV))
  | vnone

/-- Python `dict.get(key, default)` on an association list with unique
keys. -/
def pyGet (d : List (String × PyV)) (key : String) (dflt : PyV) : PyV :=
  match d.find? (fun e => e.1 = key) with
  | some e => e.2
  | none => dflt

/-- Python `str(v)` for the non-string values `sanitize_data` can meet.
The exact rendering of lists and dictionaries is irrelevant to every
property proved below (only that it is *some* string); integers render
faithfully. -/
def pyAsStr (v : PyV) : List Char :=
  match v with
  | .vstr s => s
  | .vint n => (toString n).data
  | .vnone => "None".data
  | .vlist _ => "[...]".data
  | .vdict _ => "\x7b...\x7d".data

/-- The `valid_levels` set of `JSONValidator`. -/
def validLevels : List String := ["h1", "h2", "h3", "h4", "h5", "h6"]

/-- Level sanitization inside `JSONValidator.sanitize_data`: keep a valid
`h1..h6` string, replace anything else by `h1`. -/
def sanitizeLevel (v : PyV) : PyV :=
  match v with
  | .vstr s =>
    if validLevels.any (fun w => w.data = s) then PyV.vstr s
    else PyV.vstr ("h1".data)
  | _ => PyV.vstr ("h1".data)

/-- Page sanitization inside `JSONValidator.sanitize_data`: keep an integer
of at least 1, replace anything else by 1. -/
def sanitizePage (v : PyV) : PyV :=
  match v with
  | .vint n => if n < 1 then PyV.vint 1 else PyV.vint n
  | _ => .vint 1

/-- Sanitization of one outline item inside `JSONValidator.sanitize_data`
(`none` when the item is skipped: not a dict, or empty text). -/
def sanitizeItem (item : PyV) : Option PyV :=
  match item with
  | .vdict d =>
    let text := (pyStrip (pyAsStr (pyGet d "text" (.vstr [])))).take 1000
    if text.isEmpty then none
    else
      some (.vdict [("level", sanitizeLevel (pyGet d "level" (.vstr ("h1".data)))),
                    ("text", .vstr text),
                    ("page", sanitizePage (pyGet d "page" (.vint 1)))])
  | _ => none

/-- Embedding of `JSONValidator.sanitize_data`. -/
def sanitize_data (data : List (String × PyV)) : List (String × PyV) :=
  let title := (pyStrip (pyAsStr (pyGet data "title" (.vstr [])))).take 500
  let outline := match pyGet data "outline" (.vlist []) with
    | .vlist l => l
    | _ => []
  [("title", .vstr title), ("outline", .vlist (outline.filterMap sanitizeItem))]

/-- The level check of `JSONValidator._validate_outline_item`. -/
def levelOk (v : PyV) : Bool :=
  match v with
  | .vstr s => validLevels.any (fun w => w.data = s)
  | _ => false

/-- The text check of `JSONValidator._validate_outline_item`. -/
def textOk (v : PyV) : Bool :=
  match v with
  | .vstr s => !(pyStrip s).isEmpty && s.length ≤ 1000
  | _ => false

/-- The page check of `JSONValidator._validate_outline_item`. -/
def pageOk (v : PyV) : Bool :=
  match v with
  | .vint n => 1 ≤ n
  | _ => false

/-- Embedding of `JSONValidator._validate_outline_item`. -/
def validate_outline_item (item : PyV) : Bool :=
  match item with
  | .vdict d =>
    (d.find? (fun e => e.1 = "level")).isSome &&
    (d.find? (fun e => e.1 = "text")).isSome &&
    (d.find? (fun e => e.1 = "page")).isSome &&
    levelOk (pyGet d "level" .vnone) &&
    textOk (pyGet d "text" .vnone) &&
    pageOk (pyGet d "page" .vnone)
  | _ => false

/-- The title check of `JSONValidator._validate_title` (a title may be
empty but not longer than 500 characters). -/
def titleOk (v : PyV) : Bool :=
  match v with
  | .vstr s => s.length ≤ 500
  | _ => false

/-- The outline check of `JSONValidator._validate_outline`. -/
def outlineOk (v : PyV) : Bool :=
  match v with
  | .vlist l => l.all validate_outline_item
  | _ => false

/-- Embedding of `JSONValidator.validate`. -/
def validate (data : PyV) : Bool :=
  match data with
  | .vdict d =>
    (d.find? (fun e => e.1 = "title")).isSome &&
    (d.find? (fun e => e.1 = "outline")).isSome &&
    titleOk (pyGet d "title" .vnone) &&
    outlineOk (pyGet d "outline" .vnone)
  | _ => false

/-! Definitions written from the specification's words, for comparison with
the embedded source functions. -/

/-- The title score as the specification and claim C6 word it: the length
bonus is awarded for a *cleaned* length in `[10, 100]` (the source awards
it for the stored stripped length instead). -/
def specTitleScore (b : Span) : ℚ :=
  b.size * 2 + max 0 (800 - b.y0) / 10 +
  (if b.flags &&& 16 ≠ 0 then 20 else 0) +
  (if 10 ≤ (clean_text b.text).length && (clean_text b.text).length ≤ 100 then 30 else 0) +
  (if pyIsTitle b.text then 15 else 0) +
  (if pyIsUpper b.text && b.text.length > 20 then -10 else 0)

/-- The property claim C7 asserts of `clean_text` output: scanning left to
right, a run of dots in which interleaved spaces do not break the run
never exceeds three dots. -/
def dotRunOkGo (n : ℕ) : List Char → Bool
  | [] => true
  | '.' :: rest => if n + 1 > 3 then false else dotRunOkGo (n + 1) rest
  | ' ' :: rest => dotRunOkGo n rest
  | _ :: rest => dotRunOkGo 0 rest

def specDotRunOk (s : List Char) : Bool := dotRunOkGo 0 s

/-- The earliest candidate of maximal `calculate_title_score` in
`x :: l` (ties favour the earlier element). -/
def firstMaxBy (x : Span) : List Span → Span
  | [] => x
  | y :: ys =>
    let m := firstMaxBy y ys
    if calculate_title_score x < calculate_title_score m then m else x

/-! Claim C1. -/

/-- The document of claim C1: native outline
`[(1,"Intro",1), (3,"Deep Dive",2), (2,"Background",2)]`, three pages. -/
def docC1 : Document :=
  ⟨.ok [], .ok [(1, "Intro".data, 1), (3, "Deep Dive".data, 2), (2, "Background".data, 2)], 3, []⟩

/-- C1, counterexample: on the claimed document the extracted outline keeps
the native levels h1, h3, h2 — the `Deep Dive` entry is *not* clamped to
h2 — and the produced levels violate the claimed
depth-increase-by-at-most-one invariant at the first adjacent pair. -/
theorem c1_counterexample :
    (extract_outline docC1).map OutlineItem.level = ["h1", "h3", "h2"] ∧
    ¬ ((extract_outline docC1).map OutlineItem.level = ["h1", "h2", "h2"]) ∧
    ¬ (level_map "h3" ≤ level_map "h1" + 1) := by
  refine ⟨by decide, by decide, by decide⟩

/-- C1, amended: extraction from native bookmarks emits one item per
surviving entry with the native level clamped into `[1, 6]` only; no
hierarchy repair runs on this path, so the claimed document yields
`Intro`(h1), `Deep Dive`(h3), `Background`(h2). -/
theorem c1_bookmark_levels :
    extract_outline docC1 =
      [⟨"h1", "Intro".data, 1⟩, ⟨"h3", "Deep Dive".data, 2⟩,
       ⟨"h2", "Background".data, 2⟩] := by
  decide

/-! Claim C3. -/

/-- C3, counterexample: the text `my subsection` contains the keyword
`subsection`, matches none of the earlier classifier rules, and yet is
classified h2, not h3 (the `section` keyword rule fires first, since
`section` is a substring of `subsection`). -/
theorem c3_counterexample :
    containsSub ("subsection".data) (lowerL ("my subsection".data)) = true ∧
    matchNumDotNumDotNum ("my subsection".data) = false ∧
    matchNumDotNum ("my subsection".data) = false ∧
    matchNumOptDot ("my subsection".data) = false ∧
    matchRomanOptDot ("my subsection".data) = false ∧
    matchCapDot ("my subsection".data) = false ∧
    containsSub ("chapter".data) (lowerL ("my subsection".data)) = false ∧
    containsSub ("part".data) (lowerL ("my subsection".data)) = false ∧
    detect_heading_level ("my subsection".data) 12 0 12 = "h2" ∧
    detect_heading_level ("my subsection".data) 12 0 12 ≠ "h3" := by
  refine ⟨by decide, by decide, by decide, by decide, by decide, by decide,
    by decide, by decide, by decide, by decide⟩

theorem startsWithL_append_containsSub (x y : List Char) :
    ∀ h : List Char, startsWithL (x ++ y) h = true → containsSub y h = true := by
  induction x with
  | nil =>
    intro h hs
    cases h with
    | nil => simpa [containsSub] using hs
    | cons c t => simp [containsSub, List.nil_append] at hs ⊢; exact Or.inl hs
  | cons a as ih =>
    intro h hs
    cases h with
    | nil => simp [startsWithL] at hs
    | cons b t =>
      simp only [List.cons_append, startsWithL, Bool.and_eq_true] at hs
      have := ih t hs.2
      simp [containsSub, this]

theorem containsSub_append_right (x y : List Char) :
    ∀ h : List Char, containsSub (x ++ y) h = true → containsSub y h = true := by
  intro h
  induction h with
  | nil =>
    intro hs
    simp only [containsSub] at hs
    exact startsWithL_append_containsSub x y [] hs
  | cons c t ih =>
    intro hs
    simp only [containsSub, Bool.or_eq_true] at hs ⊢
    rcases hs with hs | hs
    · have := startsWithL_append_containsSub x y (c :: t) hs
      simp only [containsSub, Bool.or_eq_true] at this
      exact this
    · exact Or.inr (ih hs)

theorem containsSub_section_of_subsection (l : List Char)
    (h : containsSub ("subsection".data) l = true) :
    containsSub ("section".data) l = true := by
  have he : ("sub".data ++ "section".data) = "subsection".data := by decide
  exact containsSub_append_right ("sub".data) ("section".data) l (by rw [he]; exact h)

/-- C3, amended: a text containing the keyword `subsection` (lower-cased)
that matches none of the prefix rules and contains neither `chapter` nor
`part` is classified h2, because `section` is a substring of `subsection`
and the `section` keyword rule is checked first; the `subsection` rule is
unreachable. -/
theorem c3_subsection_h2 (text : List Char) (fs a : ℚ) (fl : ℕ)
    (h1 : matchNumDotNumDotNum text = false)
    (h2 : matchNumDotNum text = false)
    (h3 : matchNumOptDot text = false)
    (h4 : matchRomanOptDot text = false)
    (h5 : matchCapDot text = false)
    (h6 : containsSub ("chapter".data) (lowerL text) = false)
    (h7 : containsSub ("part".data) (lowerL text) = false)
    (h8 : containsSub ("subsection".data) (lowerL text) = true) :
    detect_heading_level text fs fl a = "h2" := by
  have hsec := containsSub_section_of_subsection (lowerL text) h8
  simp [detect_heading_level, h1, h2, h3, h4, h5, h6, h7, hsec]

/-- C3, witness for the amended theorem at the text `A subsection`. -/
theorem c3_subsection_h2_witness :
    (matchNumDotNumDotNum ("A subsection".data) = false ∧
     matchNumDotNum ("A subsection".data) = false ∧
     matchNumOptDot ("A subsection".data) = false ∧
     matchRomanOptDot ("A subsection".data) = false ∧
     matchCapDot ("A subsection".data) = false ∧
     containsSub ("chapter".data) (lowerL ("A subsection".data)) = false ∧
     containsSub ("part".data) (lowerL ("A subsection".data)) = false ∧
     containsSub ("subsection".data) (lowerL ("A subsection".data)) = true) ∧
    detect_heading_level ("A subsection".data) 14 0 12 = "h2" :=
  ⟨⟨by decide, by decide, by decide, by decide, by decide, by decide, by decide, by decide⟩,
   c3_subsection_h2 ("A subsection".data) 14 12 0 (by decide) (by decide) (by decide)
     (by decide) (by decide) (by decide) (by decide) (by decide)⟩

/-! Claim C9. -/

/-- C9: the heading-level classifier is a function of its four arguments
satisfying the three fixtures, and in the fallback (all prefix rules and
keyword containments failing) classifies purely by the font-size ratio
with thresholds 1.8 / 1.5 / 1.2 and ratio 1.0 for a non-positive average. -/
theorem c9_classifier :
    detect_heading_level ("1.1 Overview".data) 14 0 12 = "h2" ∧
    detect_heading_level ("Chapter 3".data) 14 0 12 = "h1" ∧
    detect_heading_level ("Random text".data) 24 0 12 = "h1" ∧
    ∀ (text : List Char) (fs a : ℚ) (fl : ℕ),
      matchNumDotNumDotNum text = false → matchNumDotNum text = false →
      matchNumOptDot text = false → matchRomanOptDot text = false →
      matchCapDot text = false →
      containsSub ("chapter".data) (lowerL text) = false →
      containsSub ("part".data) (lowerL text) = false →
      containsSub ("section".data) (lowerL text) = false →
      containsSub ("subsection".data) (lowerL text) = false →
      detect_heading_level text fs fl a =
        (if (if a > 0 then fs / a else 1) ≥ (1.8 : ℚ) then "h1"
         else if (if a > 0 then fs / a else 1) ≥ (1.5 : ℚ) then "h2"
         else if (if a > 0 then fs / a else 1) ≥ (1.2 : ℚ) then "h3"
         else "h4") := by
  refine ⟨by decide, by decide, ?_, ?_⟩
  · have h1 : matchNumDotNumDotNum ("Random text".data) = false := by decide
    have h2 : matchNumDotNum ("Random text".data) = false := by decide
    have h3 : matchNumOptDot ("Random text".data) = false := by decide
    have h4 : matchRomanOptDot ("Random text".data) = false := by decide
    have h5 : matchCapDot ("Random text".data) = false := by decide
    have h6 : containsSub ("chapter".data) (lowerL ("Random text".data)) = false := by decide
    have h7 : containsSub ("part".data) (lowerL ("Random text".data)) = false := by decide
    have h8 : containsSub ("section".data) (lowerL ("Random text".data)) = false := by decide
    have h9 : containsSub ("subsection".data) (lowerL ("Random text".data)) = false := by decide
    simp only [detect_heading_level, h1, h2, h3, h4, h5, h6, h7, h8, h9,
      Bool.or_self, Bool.false_eq_true, if_false]
    norm_num
  · intro text fs a fl h1 h2 h3 h4 h5 h6 h7 h8 h9
    simp only [detect_heading_level, h1, h2, h3, h4, h5, h6, h7, h8, h9,
      Bool.or_self, Bool.false_eq_true, if_false]

/-- C9, witness for the fallback conjunct at the text `plain body text`
with font size 24 against average 12 (ratio 2.0, so h1). -/
theorem c9_classifier_witness :
    (matchNumDotNumDotNum ("plain body text".data) = false ∧
     matchNumDotNum ("plain body text".data) = false ∧
     matchNumOptDot ("plain body text".data) = false ∧
     matchRomanOptDot ("plain body text".data) = false ∧
     matchCapDot ("plain body text".data) = false ∧
     containsSub ("chapter".data) (lowerL ("plain body text".data)) = false ∧
     containsSub ("part".data) (lowerL ("plain body text".data)) = false ∧
     containsSub ("section".data) (lowerL ("plain body text".data)) = false ∧
     containsSub ("subsection".data) (lowerL ("plain body text".data)) = false) ∧
    detect_heading_level ("plain body text".data) 24 0 12 =
      (if (if (12 : ℚ) > 0 then (24 : ℚ) / 12 else 1) ≥ (1.8 : ℚ) then "h1"
       else if (if (12 : ℚ) > 0 then (24 : ℚ) / 12 else 1) ≥ (1.5 : ℚ) then "h2"
       else if (if (12 : ℚ) > 0 then (24 : ℚ) / 12 else 1) ≥ (1.2 : ℚ) then "h3"
       else "h4") :=
  ⟨⟨by decide, by decide, by decide, by decide, by decide, by decide, by decide,
    by decide, by decide⟩,
   c9_classifier.2.2.2 ("plain body text".data) 24 12 0 (by decide) (by decide)
     (by decide) (by decide) (by decide) (by decide) (by decide) (by decide) (by decide)⟩

/-! Claim C2. -/

theorem level_map_pos (s : String) : 1 ≤ level_map s := by
  unfold level_map
  split_ifs <;> omega

theorem level_map_le_six (s : String) : level_map s ≤ 6 := by
  unfold level_map
  split_ifs <;> omega

theorem level_map_reverse_map (n : ℕ) (h1 : 1 ≤ n) (h6 : n ≤ 6) :
    level_map (reverse_map n) = n := by
  interval_cases n <;> rfl

/-- The clamp step of `fixLevels` produces an ordinal in `[1, 6]` that is at
most `cur + 1`, and the repaired tail keeps the chain property. -/
theorem fixLevels_chain (l : List OutlineItem) : ∀ cur : ℕ, 1 ≤ cur → cur ≤ 6 →
    List.Chain' (fun a b => level_map b.level ≤ level_map a.level + 1) (fixLevels cur l) ∧
    ∀ x ∈ (fixLevels cur l).head?, level_map x.level ≤ cur + 1 := by
  induction l with
  | nil => intro cur _ _; simp [fixLevels]
  | cons it rest ih =>
    intro cur hc1 hc6
    have hn0pos : 1 ≤ level_map it.level := level_map_pos it.level
    have hn0le : level_map it.level ≤ 6 := level_map_le_six it.level
    simp only [fixLevels]
    set n0 := level_map it.level with hn0
    set n := if n0 > cur + 1 then cur + 1 else n0 with hn
    have hnpos : 1 ≤ n := by rw [hn]; split <;> omega
    have hnle6 : n ≤ 6 := by rw [hn]; split <;> omega
    have hncur : n ≤ cur + 1 := by rw [hn]; split <;> omega
    have hround : level_map (reverse_map n) = n := level_map_reverse_map n hnpos hnle6
    obtain ⟨ihc, ihh⟩ := ih n hnpos hnle6
    constructor
    · rw [List.chain'_cons']
      refine ⟨?_, ihc⟩
      intro y hy
      have := ihh y hy
      rw [hround]
      omega
    · intro x hx
      simp only [List.head?_cons, Option.mem_def, Option.some.injEq] at hx
      rw [← hx, hround]
      exact hncur

/-- C2: every output of the outline refiner satisfies the claimed
level-monotonicity: each item's level ordinal exceeds its predecessor's by
at most one. -/
theorem c2_level_monotonicity (xs : List OutlineItem) :
    List.Chain' (fun a b => level_map b.level ≤ level_map a.level + 1)
      (refine_outline xs) := by
  cases xs with
  | nil => simp [refine_outline]
  | cons x xs0 =>
    show List.Chain' _ (fix_hierarchy (sortStable pageLt (dedupGo [] (x :: xs0))))
    cases h : sortStable pageLt (dedupGo [] (x :: xs0)) with
    | nil => simp [fix_hierarchy]
    | cons y ys =>
      show List.Chain' _ (fixLevels 1 (y :: ys))
      exact (fixLevels_chain (y :: ys) 1 (by omega) (by omega)).1

/-! Claim C7. -/

/-- C7, counterexample: on input `. ...` the spaced-dots substitution of
`clean_text` concatenates its replacement with a following dot, producing
`....` — four consecutive dots, so the claimed bound of three on dot runs
(ignoring interleaved spaces) is violated by the output. -/
theorem c7_counterexample :
    clean_text (". ...".data) = "....".data ∧
    specDotRunOk ("....".data) = false ∧
    specDotRunOk (clean_text (". ...".data)) = false ∧
    specDotRunOk (clean_text ("... ...".data)) = false := by
  refine ⟨by decide, by decide, by decide, by decide⟩

theorem mem_pyStrip {a : Char} {s : List Char} (h : a ∈ pyStrip s) : a ∈ s := by
  unfold pyStrip at h
  rw [List.mem_reverse] at h
  have h1 := List.dropWhile_sublist (l := (s.dropWhile pyWs).reverse) pyWs |>.subset h
  rw [List.mem_reverse] at h1
  exact List.dropWhile_sublist (l := s) pyWs |>.subset h1

theorem mem_collapseGo {a : Char} :
    ∀ (b : Bool) (s : List Char), a ∈ collapseGo b s → a ∈ s ∨ a = ' ' := by
  intro b s
  induction s generalizing b with
  | nil => intro h; simp [collapseGo] at h
  | cons c rest ih =>
    intro h
    simp only [collapseGo] at h
    by_cases hws : pyWs c
    · simp only [hws, if_true] at h
      by_cases hb : b
      · simp only [hb, if_true] at h
        rcases ih true h with h2 | h2
        · exact Or.inl (List.mem_cons_of_mem c h2)
        · exact Or.inr h2
      · simp only [hb, if_false] at h
        rcases List.mem_cons.1 h with h2 | h2
        · exact Or.inr h2
        · rcases ih true h2 with h3 | h3
          · exact Or.inl (List.mem_cons_of_mem c h3)
          · exact Or.inr h3
    · simp only [hws, if_false] at h
      rcases List.mem_cons.1 h with h2 | h2
      · exact Or.inl (h2 ▸ List.mem_cons_self c rest)
      · rcases ih false h2 with h3 | h3
        · exact Or.inl (List.mem_cons_of_mem c h3)
        · exact Or.inr h3

theorem mem_sub1Go {a : Char} :
    ∀ (n : ℕ) (s : List Char), a ∈ sub1Go n s → a ∈ s ∨ a = '.' := by
  intro n s
  induction s generalizing n with
  | nil =>
    intro h
    simp only [sub1Go] at h
    exact Or.inr (List.eq_of_mem_replicate h)
  | cons c rest ih =>
    intro h
    simp only [sub1Go] at h
    by_cases hc : c = '.'
    · rw [if_pos hc] at h
      rcases ih (n + 1) h with h2 | h2
      · exact Or.inl (List.mem_cons_of_mem _ h2)
      · exact Or.inr h2
    · rw [if_neg hc] at h
      rcases List.mem_append.1 h with h2 | h2
      · exact Or.inr (List.eq_of_mem_replicate h2)
      · rcases List.mem_cons.1 h2 with h3 | h3
        · exact Or.inl (h3 ▸ List.mem_cons_self c rest)
        · rcases ih 0 h3 with h4 | h4
          · exact Or.inl (List.mem_cons_of_mem c h4)
          · exact Or.inr h4

theorem dotThen_some {s r : List Char} (h : dotThen s = some r) : s = '.' :: r := by
  cases s with
  | nil => simp [dotThen] at h
  | cons c t =>
    simp only [dotThen] at h
    by_cases hc : c = '.'
    · rw [if_pos hc] at h
      simp only [Option.some.injEq] at h
      rw [hc, h]
    · rw [if_neg hc] at h
      exact absurd h (by simp)

theorem matchSpacedDots_subset {s r : List Char} (h : matchSpacedDots s = some r) :
    ∀ {a : Char}, a ∈ r → a ∈ s := by
  unfold matchSpacedDots at h
  rw [Option.bind_eq_some] at h
  obtain ⟨r1, h1, h⟩ := h
  rw [Option.bind_eq_some] at h
  obtain ⟨r2, h2, h3⟩ := h
  have e1 : s.dropWhile pyWs = '.' :: r1 := dotThen_some h1
  have e2 : r1.dropWhile pyWs = '.' :: r2 := dotThen_some h2
  have e3 : r2.dropWhile pyWs = '.' :: r := dotThen_some h3
  intro a ha
  have m2 : a ∈ r2 := (e3 ▸ List.dropWhile_sublist pyWs).subset (List.mem_cons_of_mem _ ha)
  have m1 : a ∈ r1 := (e2 ▸ List.dropWhile_sublist pyWs).subset (List.mem_cons_of_mem _ m2)
  exact (e1 ▸ List.dropWhile_sublist pyWs).subset (List.mem_cons_of_mem _ m1)

theorem mem_sub2Aux {a : Char} :
    ∀ (fuel : ℕ) (s : List Char), a ∈ sub2Aux fuel s → a ∈ s ∨ a = '.' := by
  intro fuel
  induction fuel with
  | zero => intro s h; exact Or.inl h
  | succ f ih =>
    intro s h
    cases s with
    | nil => simp [sub2Aux] at h
    | cons c rest =>
      simp only [sub2Aux] at h
      cases hm : matchSpacedDots (c :: rest) with
      | some r =>
        rw [hm] at h
        simp only [List.mem_cons] at h
        rcases h with h | h | h | h
        · exact Or.inr h
        · exact Or.inr h
        · exact Or.inr h
        · rcases ih r h with h2 | h2
          · exact Or.inl (matchSpacedDots_subset hm h2)
          · exact Or.inr h2
      | none =>
        rw [hm] at h
        rcases List.mem_cons.1 h with h2 | h2
        · exact Or.inl (h2 ▸ List.mem_cons_self c rest)
        · rcases ih rest h2 with h3 | h3
          · exact Or.inl (List.mem_cons_of_mem c h3)
          · exact Or.inr h3

/-- C7, amended: `clean_text` collapses whitespace runs, trims, and removes
every character outside printable ASCII and U+00A0..U+FFFF; every
character of its output lies in those ranges.  (The dot substitutions are
applied as two `re.sub` passes whose second pass can itself produce dot
runs longer than three, as the counterexample shows, so the claimed bound
on dot runs does not hold.) -/
theorem c7_printable (s : List Char) : (clean_text s).all printableKeep = true := by
  rw [List.all_eq_true]
  intro x hx
  unfold clean_text at hx
  simp only [] at hx
  have hx1 := mem_pyStrip hx
  set t2 := (collapseGo false (pyStrip s)).filter printableKeep with ht2
  have hdot : printableKeep '.' = true := by decide
  rcases mem_sub2Aux _ _ hx1 with h2 | h2
  · rcases mem_sub1Go 0 t2 h2 with h3 | h3
    · exact List.of_mem_filter h3
    · rw [h3]; exact hdot
  · rw [h2]; exact hdot

/-! Claim C8. -/

theorem contentHeadings_error_page (ps1 ps2 : List (Except Unit (List Span))) :
    ∀ n : Int, contentHeadings n (ps1 ++ Except.error () :: ps2) =
      contentHeadings n (ps1 ++ Except.ok [] :: ps2) := by
  induction ps1 with
  | nil => intro n; rfl
  | cons p ps ih =>
    intro n
    simp only [List.cons_append, contentHeadings]
    exact congrArg _ (ih (n + 1))

/-- C8: faults are contained — a page whose span read fails contributes the
same (nothing) as an empty page while the other pages' items are kept; a
failing metadata or outline read changes nothing against an empty one, the
later strategies still running; and a document with no metadata, no native
outline and no usable spans (or whose reads all raise) yields exactly the
empty result. -/
theorem c8_fault_isolation :
    (∀ (mt : Except Unit (List Char)) (toc : Except Unit (List (Int × List Char × Int)))
       (pc : Int) (ps1 ps2 : List (Except Unit (List Span))),
       extract_from_content ⟨mt, toc, pc, ps1 ++ Except.error () :: ps2⟩ =
         extract_from_content ⟨mt, toc, pc, ps1 ++ Except.ok [] :: ps2⟩) ∧
    (∀ (toc : Except Unit (List (Int × List Char × Int))) (pc : Int)
       (pages : List (Except Unit (List Span))),
       extract_title ⟨Except.error (), toc, pc, pages⟩ =
         extract_title ⟨Except.ok [], toc, pc, pages⟩) ∧
    (∀ (mt : Except Unit (List Char)) (pc : Int)
       (pages : List (Except Unit (List Span))),
       extract_title ⟨mt, Except.error (), pc, pages⟩ =
         extract_title ⟨mt, Except.ok [], pc, pages⟩) ∧
    process_pdf ⟨Except.error (), Except.error (), 1, [Except.error ()]⟩ = ⟨[], []⟩ ∧
    process_pdf ⟨Except.ok [], Except.ok [], 1, [Except.ok []]⟩ = ⟨[], []⟩ := by
  refine ⟨?_, ?_, ?_, ?_, ?_⟩
  · intro mt toc pc ps1 ps2
    unfold extract_from_content
    rw [contentHeadings_error_page]
  · intro toc pc pages; rfl
  · intro mt pc pages
    unfold extract_title
    rfl
  · decide
  · decide

/-! Claim C4. -/

/-- The document of the C4 counterexample: its metadata title is
`a\x01\x01\x01b` — five characters before cleaning, two after. -/
def docC4 : Document :=
  ⟨.ok ['a', Char.ofNat 1, Char.ofNat 1, Char.ofNat 1, 'b'], .ok [], 1, [.ok []]⟩

/-- C4, counterexample: the metadata strategy accepts this title (raw
stripped length 5 > 3) and the resolver returns its cleaned form `ab`,
although the length after cleaning is 2 ≤ 3 — so acceptance is *not*
equivalent to "length after cleaning exceeds 3". -/
theorem c4_counterexample :
    extract_title docC4 = "ab".data ∧
    ¬ (("ab".data).length > 3) ∧
    (pyStrip ['a', Char.ofNat 1, Char.ofNat 1, Char.ofNat 1, 'b']).length > 3 := by
  refine ⟨by decide, by decide, by decide⟩

theorem orElseTitle_some_ne (t next : List Char) (h : t ≠ []) :
    orElseTitle (some t) next = t := by
  simp [orElseTitle, List.isEmpty_iff, h]

/-- The metadata strategy yields nothing when the stripped metadata title
is not longer than 3 characters. -/
theorem extract_from_metadata_none (doc : Document) (raw : List Char)
    (hm : doc.metadataTitle = Except.ok raw)
    (hlen : ¬ (pyStrip raw).length > 3) :
    extract_from_metadata doc = none := by
  unfold extract_from_metadata
  rw [hm]
  have hlen3 : decide ((pyStrip raw).length > 3) = false := by
    simp only [decide_eq_false_iff_not]; exact hlen
  simp only [hlen3, Bool.and_false, Bool.false_eq_true, if_false]

/-- C4, amended: the metadata strategy accepts exactly when the *raw
stripped* metadata title has length above 3 and its cleaned form is
non-empty.  On acceptance the resolver returns the cleaned title and no
later strategy is consulted, regardless of page content; on rejection
the remaining three strategies decide the result. -/
theorem c4_metadata_short_circuit :
    (∀ (doc : Document) (raw : List Char),
       doc.metadataTitle = Except.ok raw →
       (pyStrip raw).length > 3 →
       clean_text (pyStrip raw) ≠ [] →
       extract_title doc = clean_text (pyStrip raw)) ∧
    (∀ (doc : Document) (raw : List Char),
       doc.metadataTitle = Except.ok raw →
       ((pyStrip raw).length ≤ 3 ∨ clean_text (pyStrip raw) = []) →
       extract_title doc =
         orElseTitle (extract_from_outline doc)
           (orElseTitle (extract_from_first_page doc)
             (orElseTitle (extract_by_font_size doc) []))) := by
  constructor
  · intro doc raw hm hlen hclean
    have hne : (pyStrip raw).isEmpty = false := by
      cases hp : pyStrip raw with
      | nil => rw [hp] at hlen; simp at hlen
      | cons c t => rfl
    have hm1 : extract_from_metadata doc = some (clean_text (pyStrip raw)) := by
      unfold extract_from_metadata
      rw [hm]
      simp only [hne, Bool.not_false, Bool.true_and, decide_eq_true_eq]
      rw [if_pos hlen]
    unfold extract_title
    rw [hm1, orElseTitle_some_ne _ _ hclean]
  · intro doc raw hm hrej
    rcases hrej with hlen | hcl
    · have h0 : extract_from_metadata doc = none :=
        extract_from_metadata_none doc raw hm (by omega)
      unfold extract_title
      rw [h0]
      rfl
    · by_cases hlen : (pyStrip raw).length > 3
      · have hne : (pyStrip raw).isEmpty = false := by
          cases hp : pyStrip raw with
          | nil => rw [hp] at hlen; simp at hlen
          | cons c t => rfl
        have h0 : extract_from_metadata doc = some (clean_text (pyStrip raw)) := by
          unfold extract_from_metadata
          rw [hm]
          simp only [hne, Bool.not_false, Bool.true_and, decide_eq_true_eq]
          rw [if_pos hlen]
        unfold extract_title
        rw [h0, hcl]
        rfl
      · have h0 : extract_from_metadata doc = none :=
          extract_from_metadata_none doc raw hm hlen
        unfold extract_title
        rw [h0]
        rfl

/-- The document of the C4 witness's accept half: a qualifying metadata
title together with page content and a native outline that the resolver
must ignore. -/
def docC4w : Document :=
  ⟨.ok ("Annual Report 2023".data), .ok [(1, "Some Bookmark Heading".data, 1)], 2,
   [.ok [⟨"Completely Different Heading".data, 30, 0, 40⟩]]⟩

/-- The document of the C4 witness's reject half: its stripped metadata
title `Hi` has length 2 ≤ 3, so the later strategies decide. -/
def docC4r : Document :=
  ⟨.ok ("Hi".data), .ok [], 1, [.ok []]⟩

/-- C4, witness: the accept conjunct applied to `Annual Report 2023` and
the reject conjunct applied to the too-short metadata title `Hi`. -/
theorem c4_metadata_short_circuit_witness :
    (docC4w.metadataTitle = Except.ok ("Annual Report 2023".data) ∧
     (pyStrip ("Annual Report 2023".data)).length > 3 ∧
     clean_text (pyStrip ("Annual Report 2023".data)) ≠ []) ∧
    extract_title docC4w = clean_text (pyStrip ("Annual Report 2023".data)) ∧
    (docC4r.metadataTitle = Except.ok ("Hi".data) ∧
     ((pyStrip ("Hi".data)).length ≤ 3 ∨ clean_text (pyStrip ("Hi".data)) = [])) ∧
    extract_title docC4r =
      orElseTitle (extract_from_outline docC4r)
        (orElseTitle (extract_from_first_page docC4r)
          (orElseTitle (extract_by_font_size docC4r) [])) :=
  ⟨⟨rfl, by decide, by decide⟩,
   c4_metadata_short_circuit.1 docC4w ("Annual Report 2023".data) rfl (by decide) (by decide),
   ⟨rfl, Or.inl (by decide)⟩,
   c4_metadata_short_circuit.2 docC4r ("Hi".data) rfl (Or.inl (by decide))⟩

/-! Claim C5. -/

theorem dedupGo_nodup (l : List OutlineItem) : ∀ seen,
    ((dedupGo seen l).map itemKey).Nodup ∧
    ∀ k ∈ (dedupGo seen l).map itemKey, k ∉ seen := by
  induction l with
  | nil => intro seen; simp [dedupGo]
  | cons it rest ih =>
    intro seen
    simp only [dedupGo]
    by_cases hk : itemKey it ∈ seen
    · rw [if_pos hk]; exact ih seen
    · rw [if_neg hk]
      obtain ⟨hnd, hni⟩ := ih (itemKey it :: seen)
      refine ⟨?_, ?_⟩
      · rw [List.map_cons, List.nodup_cons]
        refine ⟨?_, hnd⟩
        intro hmem
        exact (hni _ hmem) (List.mem_cons_self _ _)
      · intro k hkm
        rw [List.map_cons, List.mem_cons] at hkm
        rcases hkm with hkm | hkm
        · rw [hkm]; exact hk
        · intro hks
          exact (hni k hkm) (List.mem_cons_of_mem _ hks)

theorem dedupGo_eq_self (l : List OutlineItem) : ∀ seen,
    (l.map itemKey).Nodup → (∀ k ∈ l.map itemKey, k ∉ seen) →
    dedupGo seen l = l := by
  induction l with
  | nil => intro seen _ _; rfl
  | cons it rest ih =>
    intro seen hnd hni
    rw [List.map_cons, List.nodup_cons] at hnd
    simp only [dedupGo]
    have hk : itemKey it ∉ seen := hni _ (by simp)
    rw [if_neg hk]
    congr 1
    apply ih
    · exact hnd.2
    · intro k hkm
      rw [List.mem_cons]
      rintro (h | h)
      · exact hnd.1 (h ▸ hkm)
      · exact hni k (by simp [hkm]) h

theorem insertStable_perm (lt : α → α → Bool) (x : α) :
    ∀ l : List α, (insertStable lt x l).Perm (x :: l) := by
  intro l
  induction l with
  | nil => simp [insertStable]
  | cons y ys ih =>
    simp only [insertStable]
    by_cases hlt : lt y x
    · rw [if_pos hlt]
      exact (ih.cons y).trans (List.Perm.swap x y ys)
    · rw [if_neg hlt]

theorem sortStable_perm (lt : α → α → Bool) :
    ∀ l : List α, (sortStable lt l).Perm l := by
  intro l
  induction l with
  | nil => simp [sortStable]
  | cons x xs ih =>
    simp only [sortStable]
    exact (insertStable_perm lt x (sortStable lt xs)).trans (ih.cons x)

theorem insertStable_pairwise (lt : α → α → Bool)
    (hasym : ∀ a b, lt a b = true → lt b a = false)
    (htrans : ∀ a b c, lt b a = false → lt c b = false → lt c a = false)
    (x : α) : ∀ l : List α, l.Pairwise (fun a b => lt b a = false) →
    (insertStable lt x l).Pairwise (fun a b => lt b a = false) := by
  intro l
  induction l with
  | nil => intro _; simp [insertStable]
  | cons y ys ih =>
    intro hp
    rw [List.pairwise_cons] at hp
    obtain ⟨hy, hys⟩ := hp
    simp only [insertStable]
    by_cases hlt : lt y x
    · rw [if_pos hlt]
      rw [List.pairwise_cons]
      refine ⟨?_, ih hys⟩
      intro z hz
      rcases List.mem_cons.1 ((insertStable_perm lt x ys).mem_iff.1 hz) with hz2 | hz2
      · rw [hz2]; exact hasym y x hlt
      · exact hy z hz2
    · rw [if_neg hlt]
      rw [List.pairwise_cons]
      refine ⟨?_, List.Pairwise.cons hy hys⟩
      intro z hz
      rcases List.mem_cons.1 hz with hz2 | hz2
      · rw [hz2]; exact Bool.eq_false_iff.2 hlt
      · exact htrans x y z (Bool.eq_false_iff.2 hlt) (hy z hz2)

theorem sortStable_pairwise (lt : α → α → Bool)
    (hasym : ∀ a b, lt a b = true → lt b a = false)
    (htrans : ∀ a b c, lt b a = false → lt c b = false → lt c a = false) :
    ∀ l : List α, (sortStable lt l).Pairwise (fun a b => lt b a = false) := by
  intro l
  induction l with
  | nil => simp [sortStable]
  | cons x xs ih =>
    simp only [sortStable]
    exact insertStable_pairwise lt hasym htrans x _ ih

theorem sortStable_eq_self (lt : α → α → Bool) :
    ∀ l : List α, l.Pairwise (fun a b => lt b a = false) → sortStable lt l = l := by
  intro l
  induction l with
  | nil => intro _; rfl
  | cons x xs ih =>
    intro hp
    rw [List.pairwise_cons] at hp
    obtain ⟨hx, hxs⟩ := hp
    simp only [sortStable]
    rw [ih hxs]
    cases xs with
    | nil => rfl
    | cons y ys =>
      simp only [insertStable]
      rw [if_neg (by rw [hx y (List.mem_cons_self y ys)]; exact Bool.false_ne_true)]

theorem pageLt_asym (a b : OutlineItem) : pageLt a b = true → pageLt b a = false := by
  simp only [pageLt, decide_eq_true_eq, decide_eq_false_iff_not]
  omega

theorem pageLt_trans_neg (a b c : OutlineItem) :
    pageLt b a = false → pageLt c b = false → pageLt c a = false := by
  simp only [pageLt, decide_eq_false_iff_not]
  omega

theorem fixLevels_map_key : ∀ (l : List OutlineItem) (cur : ℕ),
    (fixLevels cur l).map itemKey = l.map itemKey := by
  intro l
  induction l with
  | nil => intro cur; rfl
  | cons it rest ih =>
    intro cur
    simp only [fixLevels, List.map_cons, itemKey, ih]

theorem fixLevels_map_page : ∀ (l : List OutlineItem) (cur : ℕ),
    (fixLevels cur l).map OutlineItem.page = l.map OutlineItem.page := by
  intro l
  induction l with
  | nil => intro cur; rfl
  | cons it rest ih =>
    intro cur
    simp only [fixLevels, List.map_cons, ih]

theorem fixLevels_fixLevels : ∀ (l : List OutlineItem) (cur : ℕ),
    1 ≤ cur → cur ≤ 6 →
    fixLevels cur (fixLevels cur l) = fixLevels cur l := by
  intro l
  induction l with
  | nil => intro cur _ _; rfl
  | cons it rest ih =>
    intro cur hc1 hc6
    have hn0pos : 1 ≤ level_map it.level := level_map_pos it.level
    have hn0le : level_map it.level ≤ 6 := level_map_le_six it.level
    simp only [fixLevels]
    set n0 := level_map it.level with hn0def
    set n := if n0 > cur + 1 then cur + 1 else n0 with hndef
    have hnpos : 1 ≤ n := by rw [hndef]; split <;> omega
    have hnle6 : n ≤ 6 := by rw [hndef]; split <;> omega
    have hncur : n ≤ cur + 1 := by rw [hndef]; split <;> omega
    have hround : level_map (reverse_map n) = n :=
      level_map_reverse_map n hnpos hnle6
    simp only [hround]
    rw [if_neg (by omega)]
    exact congrArg _ (ih n hnpos hnle6)

theorem fix_hierarchy_map_key (l : List OutlineItem) :
    (fix_hierarchy l).map itemKey = l.map itemKey := by
  cases l with
  | nil => rfl
  | cons y ys => exact fixLevels_map_key (y :: ys) 1

theorem fix_hierarchy_map_page (l : List OutlineItem) :
    (fix_hierarchy l).map OutlineItem.page = l.map OutlineItem.page := by
  cases l with
  | nil => rfl
  | cons y ys => exact fixLevels_map_page (y :: ys) 1

theorem fix_hierarchy_fix (l : List OutlineItem) :
    fixLevels 1 (fix_hierarchy l) = fix_hierarchy l := by
  cases l with
  | nil => rfl
  | cons y ys => exact fixLevels_fixLevels (y :: ys) 1 (by omega) (by omega)

/-- Pairwise page-order only depends on the pages. -/
theorem pairwise_page_transport (l1 l2 : List OutlineItem)
    (h : l1.map OutlineItem.page = l2.map OutlineItem.page)
    (hp : l1.Pairwise (fun a b => pageLt b a = false)) :
    l2.Pairwise (fun a b => pageLt b a = false) := by
  have h1 : (l1.map OutlineItem.page).Pairwise (fun p q => ¬ q < p) := by
    rw [List.pairwise_map]
    exact hp.imp (fun hab => by simpa [pageLt, decide_eq_false_iff_not] using hab)
  rw [h, List.pairwise_map] at h1
  exact h1.imp (fun hab => by simpa [pageLt, decide_eq_false_iff_not] using hab)

theorem refine_outline_cons (x : OutlineItem) (xs : List OutlineItem) :
    refine_outline (x :: xs) =
      fix_hierarchy (sortStable pageLt (dedupGo [] (x :: xs))) := rfl

/-- A list with distinct keys, sorted by page, and already level-repaired
is a fixed point of the refiner. -/
theorem refine_outline_fixpoint (l : List OutlineItem)
    (hnodup : (l.map itemKey).Nodup)
    (hpair : l.Pairwise (fun a b => pageLt b a = false))
    (hfix : fixLevels 1 l = l) :
    refine_outline l = l := by
  cases l with
  | nil => rfl
  | cons y ys =>
    rw [refine_outline_cons]
    rw [dedupGo_eq_self _ _ hnodup (by simp)]
    rw [sortStable_eq_self _ _ hpair]
    show fixLevels 1 (y :: ys) = y :: ys
    exact hfix

/-- C5: the outline refiner is idempotent — refining its own output
changes nothing. -/
theorem c5_refine_idempotent (xs : List OutlineItem) :
    refine_outline (refine_outline xs) = refine_outline xs := by
  cases xs with
  | nil => rfl
  | cons x xs0 =>
    rw [refine_outline_cons]
    apply refine_outline_fixpoint
    · rw [fix_hierarchy_map_key]
      have hd : ((dedupGo [] (x :: xs0)).map itemKey).Nodup :=
        (dedupGo_nodup (x :: xs0) []).1
      exact ((sortStable_perm pageLt (dedupGo [] (x :: xs0))).map itemKey).nodup_iff.2 hd
    · apply pairwise_page_transport _ _ (fix_hierarchy_map_page _).symm
      exact sortStable_pairwise pageLt pageLt_asym pageLt_trans_neg _
    · exact fix_hierarchy_fix _

/-! Claim C6. -/

/-- The stable descending sort places the earliest maximal-score candidate
first. -/
theorem sortStable_head_firstMax :
    ∀ (cs : List Span) (c : Span),
      ∃ t, sortStable scoreGt (c :: cs) = firstMaxBy c cs :: t := by
  intro cs
  induction cs with
  | nil => intro c; exact ⟨[], rfl⟩
  | cons y ys ih =>
    intro c
    obtain ⟨t, ht⟩ := ih y
    show ∃ t', insertStable scoreGt c (sortStable scoreGt (y :: ys)) = _ :: t'
    rw [ht]
    simp only [insertStable, firstMaxBy]
    by_cases hgt : scoreGt (firstMaxBy y ys) c
    · rw [if_pos hgt]
      rw [if_pos (by simpa [scoreGt] using hgt)]
      exact ⟨insertStable scoreGt c t, rfl⟩
    · rw [if_neg hgt]
      rw [if_neg (by simpa [scoreGt] using hgt)]
      exact ⟨firstMaxBy y ys :: t, rfl⟩

theorem firstMaxBy_le :
    ∀ (cs : List Span) (c : Span), ∀ z ∈ c :: cs,
      calculate_title_score z ≤ calculate_title_score (firstMaxBy c cs) := by
  intro cs
  induction cs with
  | nil =>
    intro c z hz
    rcases List.mem_cons.1 hz with h | h
    · rw [h]; exact le_refl _
    · simp at h
  | cons y ys ih =>
    intro c z hz
    simp only [firstMaxBy]
    by_cases hlt : calculate_title_score c < calculate_title_score (firstMaxBy y ys)
    · rw [if_pos hlt]
      rcases List.mem_cons.1 hz with h | h
      · rw [h]; exact le_of_lt hlt
      · exact ih y z h
    · rw [if_neg hlt]
      rcases List.mem_cons.1 hz with h | h
      · rw [h]
      · exact le_trans (ih y z h) (not_lt.1 hlt)

theorem firstMaxBy_earliest :
    ∀ (cs : List Span) (c : Span),
      ∃ i, ∃ h : i < (c :: cs).length, (c :: cs).get ⟨i, h⟩ = firstMaxBy c cs ∧
        ∀ j (hj : j < i),
          calculate_title_score ((c :: cs).get ⟨j, Nat.lt_trans hj h⟩) <
            calculate_title_score (firstMaxBy c cs) := by
  intro cs
  induction cs with
  | nil =>
    intro c
    exact ⟨0, by simp, rfl, fun j hj => by omega⟩
  | cons y ys ih =>
    intro c
    obtain ⟨i, h, hg, hlt⟩ := ih y
    by_cases hc : calculate_title_score c < calculate_title_score (firstMaxBy y ys)
    · refine ⟨i + 1, by simpa using Nat.succ_lt_succ h, ?_, ?_⟩
      · simp only [List.get]
        rw [hg]
        simp only [firstMaxBy]
        rw [if_pos hc]
      · intro j hj
        simp only [firstMaxBy]
        rw [if_pos hc]
        cases j with
        | zero => simpa using hc
        | succ k =>
          have hk : k < i := by omega
          simpa using hlt k hk
    · refine ⟨0, by simp, ?_, fun j hj => by omega⟩
      simp only [List.get, firstMaxBy]
      rw [if_neg hc]

/-- C6, amended: when at least one candidate survives the first-page
filters, the first-page scoring strategy returns the cleaned text of the
earliest candidate attaining the maximal `calculate_title_score` — the
source formula, whose length bonus is computed on the stored
stripped-but-not-cleaned span text. -/
theorem c6_first_page_scoring (doc : Document) (spans : List Span) (c : Span)
    (cs : List Span)
    (hpc : doc.page_count ≠ 0)
    (hp : ∃ rest, doc.pages = Except.ok spans :: rest)
    (hc : titleCandidates (get_text_blocks (Except.ok spans)) = c :: cs) :
    extract_from_first_page doc = some (clean_text (firstMaxBy c cs).text) ∧
    (∀ x ∈ c :: cs,
      calculate_title_score x ≤ calculate_title_score (firstMaxBy c cs)) ∧
    ∃ i, ∃ h : i < (c :: cs).length, (c :: cs).get ⟨i, h⟩ = firstMaxBy c cs ∧
      ∀ j (hj : j < i),
        calculate_title_score ((c :: cs).get ⟨j, Nat.lt_trans hj h⟩) <
          calculate_title_score (firstMaxBy c cs) := by
  refine ⟨?_, firstMaxBy_le cs c, firstMaxBy_earliest cs c⟩
  obtain ⟨rest, hrest⟩ := hp
  obtain ⟨t, ht⟩ := sortStable_head_firstMax cs c
  unfold extract_from_first_page
  rw [if_neg hpc, hrest]
  show (match sortStable scoreGt (titleCandidates (get_text_blocks (Except.ok spans))) with
    | [] => none
    | c :: _ => some (clean_text c.text)) = _
  rw [hc, ht]

/-- The two spans of the C6 counterexample: equal code scores (both 139),
but the first one's cleaned text has only 9 characters, so under the
claimed cleaned-length bonus its score would drop to 109. -/
def spanA6 : Span := ⟨"Ab  Cd  Efg".data, 12, 0, 100⟩

def spanB6 : Span := ⟨"Abcdefghij".data, 12, 0, 100⟩

def docC6 : Document := ⟨.ok [], .ok [], 1, [.ok [spanA6, spanB6]]⟩

theorem calculate_title_score_spanA6 : calculate_title_score spanA6 = 139 := by
  have h1 : ¬ ((0 : ℕ) &&& 16 ≠ 0) := by decide
  have h2 : (10 ≤ ("Ab  Cd  Efg".data).length && ("Ab  Cd  Efg".data).length ≤ 100) = true := by
    decide
  have h3 : pyIsTitle ("Ab  Cd  Efg".data) = true := by decide
  have h4 : (pyIsUpper ("Ab  Cd  Efg".data) && ("Ab  Cd  Efg".data).length > 20) = false := by
    decide
  simp only [calculate_title_score, spanA6, h1, h2, h3, h4, if_true, if_false,
    Bool.false_eq_true]
  norm_num

theorem calculate_title_score_spanB6 : calculate_title_score spanB6 = 139 := by
  have h1 : ¬ ((0 : ℕ) &&& 16 ≠ 0) := by decide
  have h2 : (10 ≤ ("Abcdefghij".data).length && ("Abcdefghij".data).length ≤ 100) = true := by
    decide
  have h3 : pyIsTitle ("Abcdefghij".data) = true := by decide
  have h4 : (pyIsUpper ("Abcdefghij".data) && ("Abcdefghij".data).length > 20) = false := by
    decide
  simp only [calculate_title_score, spanB6, h1, h2, h3, h4, if_true, if_false,
    Bool.false_eq_true]
  norm_num

/-- C6, counterexample: the strategy returns the cleaned text of
`spanA6` — the candidate produced first among the two equal code scores —
although under the claimed formula (length bonus on *cleaned* length)
`spanB6` scores strictly higher and its cleaned text differs. -/
theorem c6_counterexample :
    extract_from_first_page docC6 = some ("Ab Cd Efg".data) ∧
    specTitleScore spanA6 < specTitleScore spanB6 ∧
    clean_text spanB6.text = "Abcdefghij".data ∧
    "Ab Cd Efg".data ≠ "Abcdefghij".data := by
  have hgt : scoreGt spanB6 spanA6 = false := by
    simp only [scoreGt, calculate_title_score_spanA6, calculate_title_score_spanB6]
    norm_num
  refine ⟨?_, ?_, by decide, by decide⟩
  · have hcand : titleCandidates (get_text_blocks (Except.ok [spanA6, spanB6])) =
        [spanA6, spanB6] := by decide
    unfold extract_from_first_page docC6
    rw [if_neg (by decide)]
    show (match sortStable scoreGt
        (titleCandidates (get_text_blocks (Except.ok [spanA6, spanB6]))) with
      | [] => none
      | c :: _ => some (clean_text c.text)) = _
    rw [hcand]
    show (match insertStable scoreGt spanA6 (insertStable scoreGt spanB6 []) with
      | [] => none
      | c :: _ => some (clean_text c.text)) = _
    simp only [insertStable, hgt, Bool.false_eq_true, if_false]
    show some (clean_text spanA6.text) = _
    decide
  · have h2a : (10 ≤ (clean_text ("Ab  Cd  Efg".data)).length &&
        (clean_text ("Ab  Cd  Efg".data)).length ≤ 100) = false := by decide
    have h2b : (10 ≤ (clean_text ("Abcdefghij".data)).length &&
        (clean_text ("Abcdefghij".data)).length ≤ 100) = true := by decide
    have h1 : ¬ ((0 : ℕ) &&& 16 ≠ 0) := by decide
    have h3a : pyIsTitle ("Ab  Cd  Efg".data) = true := by decide
    have h3b : pyIsTitle ("Abcdefghij".data) = true := by decide
    have h4a : (pyIsUpper ("Ab  Cd  Efg".data) && ("Ab  Cd  Efg".data).length > 20) = false := by
      decide
    have h4b : (pyIsUpper ("Abcdefghij".data) && ("Abcdefghij".data).length > 20) = false := by
      decide
    simp only [specTitleScore, spanA6, spanB6, h1, h2a, h2b, h3a, h3b, h4a, h4b,
      if_true, if_false, Bool.false_eq_true]
    norm_num

/-- The single candidate span of the C6 witness document. -/
def spanC6w : Span := ⟨"Quarterly Results Overview".data, 20, 0, 50⟩

def docC6w : Document := ⟨.ok [], .ok [], 1, [.ok [spanC6w]]⟩

/-- C6, witness for the amended theorem on a one-candidate first page. -/
theorem c6_first_page_scoring_witness :
    (docC6w.page_count ≠ 0 ∧
     (∃ rest, docC6w.pages = Except.ok [spanC6w] :: rest) ∧
     titleCandidates (get_text_blocks (Except.ok [spanC6w])) = spanC6w :: []) ∧
    extract_from_first_page docC6w = some (clean_text (firstMaxBy spanC6w []).text) :=
  ⟨⟨by decide, ⟨[], rfl⟩, by decide⟩,
   (c6_first_page_scoring docC6w [spanC6w] spanC6w [] (by decide) ⟨[], rfl⟩ (by decide)).1⟩

/-! Claim C10. -/

theorem dropWhile_head_false (p : Char → Bool) :
    ∀ (l : List Char) (c : Char) (t : List Char), l.dropWhile p = c :: t → p c = false := by
  intro l
  induction l with
  | nil => intro c t h; simp [List.dropWhile] at h
  | cons a l ih =>
    intro c t h
    rw [List.dropWhile_cons] at h
    by_cases ha : p a
    · rw [if_pos ha] at h; exact ih c t h
    · rw [if_neg ha] at h
      obtain ⟨h1, _⟩ := List.cons.inj h
      rw [← h1]
      exact Bool.eq_false_iff.2 ha

theorem dropWhile_append_exists (p : Char → Bool) :
    ∀ l : List Char, ∃ t, t ++ l.dropWhile p = l := by
  intro l
  induction l with
  | nil => exact ⟨[], rfl⟩
  | cons a l ih =>
    rw [List.dropWhile_cons]
    by_cases ha : p a
    · rw [if_pos ha]
      obtain ⟨t, ht⟩ := ih
      exact ⟨a :: t, by rw [List.cons_append, ht]⟩
    · rw [if_neg ha]
      exact ⟨[], rfl⟩

theorem pyStrip_head_false :
    ∀ (s : List Char) (c : Char) (t : List Char), pyStrip s = c :: t → pyWs c = false := by
  intro s c t h
  unfold pyStrip at h
  obtain ⟨u, hu⟩ := dropWhile_append_exists pyWs (s.dropWhile pyWs).reverse
  have hXeq : s.dropWhile pyWs =
      ((s.dropWhile pyWs).reverse.dropWhile pyWs).reverse ++ u.reverse := by
    have h2 := congrArg List.reverse hu
    rw [List.reverse_append, List.reverse_reverse] at h2
    exact h2.symm
  rw [h, List.cons_append] at hXeq
  exact dropWhile_head_false pyWs s c (t ++ u.reverse) hXeq

theorem pyStrip_cons_ne_nil (c : Char) (t : List Char) (hc : pyWs c = false) :
    pyStrip (c :: t) ≠ [] := by
  unfold pyStrip
  intro h
  rw [List.reverse_eq_nil_iff, List.dropWhile_eq_nil_iff] at h
  have hd : List.dropWhile pyWs (c :: t) = c :: t := by
    rw [List.dropWhile_cons, if_neg (by rw [hc]; exact Bool.false_ne_true)]
  rw [hd] at h
  have := h c (List.mem_reverse.2 (List.mem_cons_self c t))
  rw [hc] at this
  exact Bool.false_ne_true this

theorem take_head_eq (c0 : Char) (t0 : List Char) (c : Char) (ct : List Char) (n : ℕ)
    (h : List.take n (c0 :: t0) = c :: ct) : c = c0 := by
  cases n with
  | zero => simp at h
  | succ m =>
    rw [List.take_succ_cons] at h
    exact ((List.cons.inj h).1).symm

theorem sanitizeLevel_levelOk (v : PyV) : levelOk (sanitizeLevel v) = true := by
  cases v with
  | vstr s =>
    simp only [sanitizeLevel]
    by_cases hv : validLevels.any (fun w => w.data = s) = true
    · simp only [hv, if_true, levelOk]
    · simp only [hv, Bool.false_eq_true, if_false]
      rfl
  | vint n => rfl
  | vlist l => rfl
  | vdict l => rfl
  | vnone => rfl

theorem sanitizePage_pageOk (v : PyV) : pageOk (sanitizePage v) = true := by
  cases v with
  | vint n =>
    simp only [sanitizePage]
    by_cases hn : n < 1
    · simp only [hn, if_true]; rfl
    · simp only [hn, if_false, pageOk]
      simp only [decide_eq_true_eq]
      omega
  | vstr s => rfl
  | vlist l => rfl
  | vdict l => rfl
  | vnone => rfl

theorem sanitizeItem_valid (item : PyV) (r : PyV) (h : sanitizeItem item = some r) :
    validate_outline_item r = true := by
  cases item with
  | vstr s => simp [sanitizeItem] at h
  | vint n => simp [sanitizeItem] at h
  | vlist l => simp [sanitizeItem] at h
  | vnone => simp [sanitizeItem] at h
  | vdict d =>
    simp only [sanitizeItem] at h
    by_cases htx : ((pyStrip (pyAsStr (pyGet d "text" (.vstr [])))).take 1000).isEmpty
    · rw [if_pos htx] at h; exact absurd h (by simp)
    · rw [if_neg htx] at h
      simp only [Option.some.injEq] at h
      subst h
      -- the produced item is an explicit three-entry dictionary
      cases htk : (pyStrip (pyAsStr (pyGet d "text" (.vstr [])))).take 1000 with
      | nil => rw [htk] at htx; exact absurd rfl htx
      | cons c ct =>
        have hcws : pyWs c = false := by
          cases hps : pyStrip (pyAsStr (pyGet d "text" (.vstr []))) with
          | nil => rw [hps] at htk; simp at htk
          | cons c0 t0 =>
            have hc0 : pyWs c0 = false := pyStrip_head_false _ c0 t0 hps
            rw [hps] at htk
            rw [take_head_eq c0 t0 c ct 1000 htk]
            exact hc0
        have hstrip : pyStrip (c :: ct) ≠ [] := pyStrip_cons_ne_nil c ct hcws
        have hlen : (c :: ct).length ≤ 1000 := by
          rw [← htk, List.length_take]; exact min_le_left _ _
        simp only [validate_outline_item, pyGet, List.find?]
        simp only [String.reduceEq, decide_False, decide_True, Option.isSome_some,
          Bool.true_and]
        rw [Bool.and_eq_true, Bool.and_eq_true]
        refine ⟨⟨sanitizeLevel_levelOk _, ?_⟩, sanitizePage_pageOk _⟩
        -- the text field is non-empty after stripping and short enough
        simp only [textOk, Bool.and_eq_true]
        constructor
        · simpa using hstrip
        · simpa using hlen

/-- C10: sanitization always yields a schema-valid result — the title is a
string of at most 500 characters and every retained outline item has a
valid level tag, non-empty bounded text, and an integral page of at least
1. -/
theorem c10_sanitize_validates (data : List (String × PyV)) :
    validate (PyV.vdict (sanitize_data data)) = true := by
  unfold sanitize_data validate
  simp only [pyGet, List.find?, String.reduceEq, decide_False, decide_True,
    Option.isSome_some, Bool.true_and]
  rw [Bool.and_eq_true]
  refine ⟨?_, ?_⟩
  · -- title length
    simp only [titleOk, List.length_take]
    simp only [decide_eq_true_eq]
    exact min_le_left 500 (pyStrip (pyAsStr (pyGet data "title" (.vstr [])))).length
  · -- every sanitized outline item validates
    simp only [outlineOk]
    rw [List.all_eq_true]
    intro x hx
    obtain ⟨a, _, ha⟩ := List.mem_filterMap.1 hx
    exact sanitizeItem_valid a x ha

end PdfStruct
